import Mathlib

/-!
Verification of the HomeKitty capability-mapping engine and exposure ledger.

This development is a shallow embedding of the JavaScript sources:
* `lib/mapped-device.js` — the capability grouper, the capability-to-characteristic
  binder (`accessorize`), and the per-device handle (`MappedDevice`);
* the application file (`app.js`) — the exposure ledger (`StorageBackedMap`)
  and `addDeviceToHomeKit`.

JavaScript objects used as ordered string-keyed dictionaries (and `Map`) are
modelled as association lists that keep insertion order; `undefined` is
modelled with `Option`.  Machine details that no statement here depends on
(logging, the exact UUID scheme, the textual content of error messages) are
carried as plain data.
-/

set_option autoImplicit false

/-! ## JavaScript `Map` / plain-object primitives

An association list with the lookup/update behaviour of a JS `Map`
(first-match lookup; update-in-place keeps insertion order; a new key is
appended).  Keys are strings, values are an arbitrary type. -/

/-- First-match lookup, i.e. `map.get(key)` / `obj[key]`, with `none` for
`undefined`. -/
def jsGet {V : Type} : List (String × V) → String → Option V
  | [], _ => none
  | (k', v) :: t, k => if k' = k then some v else jsGet t k

/-- JS `map.set(key, value)`: replace the value of an existing key in place,
append a fresh key at the end. -/
def jsSet {V : Type} : List (String × V) → String → V → List (String × V)
  | [], k, v => [(k, v)]
  | (k', v') :: t, k, v => if k' = k then (k, v) :: t else (k', v') :: jsSet t k v

/-- JS `map.delete(key)`: remove the binding of `key` (the first one, which is
the only one for a well-formed map). -/
def jsDelete {V : Type} : List (String × V) → String → List (String × V)
  | [], _ => []
  | (k', v') :: t, k => if k' = k then t else (k', v') :: jsDelete t k

/-- JS `map.has(key)`. -/
def jsHas {V : Type} (l : List (String × V)) (k : String) : Bool :=
  (jsGet l k).isSome

/-! ## Exposure Ledger (`StorageBackedMap`, app file lines 600–639)

```js
class StorageBackedMap extends Map {
  #dirty  = false;
  constructor(data, onSave) { super(); for (...) this.set(key, value); this.#dirty = false; ... }
  set(key, value) { this.#dirty = this.#dirty || this.get(key) !== value; return super.set(key, value); }
  setAll(value)   { for (const key of this.keys()) { this.set(key, value); } this.save(); }
  delete(key)     { this.#dirty = this.#dirty || this.has(key); return super.delete(key); }
  save()          { if (! this.#dirty) return; this.#onSave(Object.fromEntries(this)); this.#dirty = false; }
  isDirty()       { return this.#dirty; }
}
```

The external persistence sink `onSave` is abstracted to a call counter: the
operations that may call it return, next to the new state, the number of
times the sink was invoked. -/

structure StorageBackedMap (V : Type) where
  entries : List (String × V)
  dirty : Bool

def StorageBackedMap.get {V : Type} (s : StorageBackedMap V) (k : String) : Option V :=
  jsGet s.entries k

def StorageBackedMap.has {V : Type} (s : StorageBackedMap V) (k : String) : Bool :=
  jsHas s.entries k

def StorageBackedMap.isDirty {V : Type} (s : StorageBackedMap V) : Bool :=
  s.dirty

/-- Source `set(key, value)`: the dirty bit is read before the store, exactly as in
the source (`this.#dirty || this.get(key) !== value`). -/
def StorageBackedMap.set {V : Type} [DecidableEq V] (s : StorageBackedMap V) (k : String)
    (v : V) : StorageBackedMap V :=
  { entries := jsSet s.entries k v
    dirty := s.dirty || decide (¬ jsGet s.entries k = some v) }

/-- Source `delete(key)`. -/
def StorageBackedMap.del {V : Type} (s : StorageBackedMap V) (k : String) : StorageBackedMap V :=
  { entries := jsDelete s.entries k
    dirty := s.dirty || jsHas s.entries k }

/-- Source `save()`: a no-op unless dirty; otherwise one call to the sink, then the
dirty bit is cleared.  The second component counts sink invocations. -/
def StorageBackedMap.save {V : Type} (s : StorageBackedMap V) : StorageBackedMap V × Nat :=
  if s.dirty then ({ s with dirty := false }, 1) else (s, 0)

/-- Source `setAll(value)`: set every existing key (the key list is fixed before the
loop, as `Map` iteration over untouched keys delivers), then `save()`. -/
def StorageBackedMap.setAll {V : Type} [DecidableEq V] (s : StorageBackedMap V) (v : V) :
    StorageBackedMap V × Nat :=
  ((s.entries.map Prod.fst).foldl (fun t k => t.set k v) s).save

/-- The constructor: load the persisted snapshot through `set`, then treat the
map as not dirty. -/
def StorageBackedMap.load {V : Type} [DecidableEq V] (data : List (String × V)) :
    StorageBackedMap V :=
  { entries := (data.foldl (fun t kv => t.set kv.1 kv.2)
      ({ entries := [], dirty := false } : StorageBackedMap V)).entries
    dirty := false }

/-! ## Capability Grouper (`mapped-device.js` lines 78–101)

```js
groupCapabilities() {
  const capabilities = this.#device.ui?.components?.map(c => c.capabilities).flat() || [];
  return capabilities.reduce((acc, cap) => {
    const [ capability, group = '' ] = cap.split('.');
    if (! acc[group]) acc[group] = [];
    acc[group].push(capability);
    return acc;
  }, {})
}

flattenGroups(groups) {
  const groupNames = Object.keys(groups).sort((a, b) => a.length - b.length);
  return groupNames.reduce((acc, group) => {
    acc.groups[group] = groups[group].filter(cap => ! (cap in acc.seen)).map(cap => {
      acc.seen[cap] = true;
      return cap;
    });
    return acc;
  }, { groups : {}, seen : {} }).groups;
}
```
-/

/-- JavaScript `String#split` with a single-character separator: every
occurrence of the separator ends a segment; empty segments are kept;
splitting the empty string yields `[[]]`. -/
def splitOnChar (sep : Char) : List Char → List (List Char)
  | [] => [[]]
  | c :: rest =>
      let r := splitOnChar sep rest
      if c = sep then [] :: r else (c :: r.headD []) :: r.tail

/-- JS `cap.split('.')` on a Lean `String`. -/
def jsSplitDot (s : String) : List String :=
  (splitOnChar '.' s.data).map String.mk

/-- Destructuring `const [ capability, group = '' ] = cap.split('.')`: the base capability is
segment 0 (always present), the group key is segment 1, defaulting to the
empty string. -/
def parseCap (cap : String) : String × String :=
  (( jsSplitDot cap).headD "", (jsSplitDot cap).getD 1 "")

/-- The push `if (! acc[group]) acc[group] = []; acc[group].push(capability)` on an
insertion-ordered object.  (JS objects move integer-like keys to the front;
group suffixes are non-numeric in practice, and no claim below depends on the
entry order of the grouping result.) -/
def pushGroup : List (String × List String) → String → String → List (String × List String)
  | [], g, c => [(g, [c])]
  | (g', l) :: t, g, c =>
      if g' = g then (g', l ++ [c]) :: t else (g', l) :: pushGroup t g c

/-- The `reduce` of `groupCapabilities`, over an explicit list of visible
capability identifiers. -/
def groupCapabilitiesOf (caps : List String) : List (String × List String) :=
  caps.foldl (fun acc cap => pushGroup acc (parseCap cap).2 (parseCap cap).1) []

/-- The comparator `(a, b) => a.length - b.length`: sort group names by
ascending length. -/
def lenLE (a b : String) : Prop := a.length ≤ b.length

instance : DecidableRel lenLE := fun a b => inferInstanceAs (Decidable (_ ≤ _))

instance : IsTotal String lenLE := ⟨fun a b => Nat.le_total a.length b.length⟩

instance : IsTrans String lenLE := ⟨fun _ _ _ h1 h2 => Nat.le_trans h1 h2⟩

/-- Lookup `groups[group]` (group names come from `Object.keys(groups)`, so the
lookup always succeeds in the source; lookup failure defaults to `[]`). -/
def lookupGroup (groups : List (String × List String)) (g : String) : List String :=
  (jsGet groups g).getD []

/-- The `reduce` of `flattenGroups`: walk the sorted group names, keeping in
each group only the capabilities not seen in an earlier group.  The filter of
a whole group runs before its capabilities are marked seen, exactly as
`filter(...).map(...)` does in the source. -/
def flattenGo (groups : List (String × List String)) (seen : List String) :
    List String → List (String × List String)
  | [] => []
  | g :: rest =>
      let kept := (lookupGroup groups g).filter (fun c => ! seen.contains c)
      (g, kept) :: flattenGo groups (seen ++ kept) rest

/-- Source `flattenGroups(groups)`. -/
def flattenGroups (groups : List (String × List String)) : List (String × List String) :=
  flattenGo groups [] (List.insertionSort lenLE (groups.map Prod.fst))

/-- Number of output groups whose capability list contains `cap`. -/
def countContaining (cap : String) (out : List (String × List String)) : Nat :=
  (out.filter (fun g => g.2.contains cap)).length

/-! ## Capability-to-Characteristic Binder (`mapped-device.js` lines 103–225)

Values flowing between the device and the target protocol are an arbitrary
type `V`.  Getter/setter transforms take the raw value; the metadata object
(`{ device, service, characteristic }`) the source also passes is ignored by
this model, no claim depends on it.  `undefined` is `none`. -/

/-- A JS field that may hold one element or an array of elements (e.g. the
`characteristics`, `get` and `set` fields of a characteristic binding);
`[x].flat()` normalises both shapes to an array. -/
inductive OneOrMany (α : Type) : Type
  | one : α → OneOrMany α
  | many : List α → OneOrMany α

def OneOrMany.flat {α : Type} : OneOrMany α → List α
  | .one a => [a]
  | .many l => l

/-- Normalisation `[ field ].flat()` for a possibly-absent field: an absent field yields the
one-element array `[ undefined ]`, exactly as in the source. -/
def flatField {α : Type} : Option (OneOrMany α) → List (Option α)
  | none => [none]
  | some f => f.flat.map some

/-- A `characteristicMap`: one characteristic binding of a capability map. -/
structure CharacteristicMap (V : Type) where
  characteristics : OneOrMany String
  get : Option (OneOrMany (V → V))
  set : Option (OneOrMany (V → V))
  debounce : Option Nat

/-- The device, at the interface the binder consumes: `capabilitiesObj` maps a
capability name to an object whose `value` may itself be undefined;
`uiComponents` is `device.ui?.components`, each component reduced to its
`capabilities` list. -/
structure Device (V : Type) where
  id : String
  name : String
  devClass : String
  driverId : Option String
  ready : Bool
  capabilities : List String
  capabilitiesObj : Option (List (String × Option V))
  uiComponents : Option (List (List String))

/-- Visible capabilities `device.ui?.components?.map(c => c.capabilities).flat() || []`. -/
def visibleCapabilities {V : Type} (d : Device V) : List String :=
  match d.uiComponents with
  | none => []
  | some comps => comps.flatten

/-- Raw value `device.capabilitiesObj?.[capability]?.value`. -/
def rawCapValue {V : Type} (d : Device V) (cap : String) : Option V :=
  match d.capabilitiesObj with
  | none => none
  | some co =>
      match jsGet co cap with
      | none => none
      | some entry => entry

/-- Source `updateCapability(capability, value)` (lines 68–76): create the
`capabilitiesObj` object and the capability entry when missing, then store the
value. -/
def updateCapability {V : Type} (d : Device V) (cap : String) (v : V) : Device V :=
  { d with capabilitiesObj := some (jsSet (d.capabilitiesObj.getD []) cap (some v)) }

/-- Getter selection `getters[ device.capabilities.includes(capability) ? 0 : 1 ]`
(an out-of-range index is `undefined`). -/
def selectedGetter {V : Type} (device : Device V) (capability : String)
    (cm : CharacteristicMap V) : Option (V → V) :=
  (flatField cm.get).getD (if device.capabilities.contains capability then 0 else 1) none

/-- Setter selection `setters[ device.capabilities.includes(capability) ? 0 : 1 ]`. -/
def selectedSetter {V : Type} (device : Device V) (capability : String)
    (cm : CharacteristicMap V) : Option (V → V) :=
  (flatField cm.set).getD (if device.capabilities.contains capability then 0 else 1) none

/-- The data of an installed `onGet` read handler. -/
structure ReadBinding (V : Type) where
  getter : V → V
  capability : String
  charType : String

/-- The data of an installed, debounced `onSet` write handler. -/
structure WriteBinding (V : Type) where
  setter : V → V
  capability : String
  timeout : Nat
  immediate : Bool

/-- One target characteristic as constructed by the binder: its type, whether
an `onUpdate` change hook was attached, and the installed handlers. -/
structure BoundChar (V : Type) where
  charType : String
  hasChangeHook : Bool
  readB : Option (ReadBinding V)
  writeB : Option (WriteBinding V)

/-- One subscription made through `device.makeCapabilityInstance`, with the
debounce parameters of its wrapped callback and the getter the callback
applies for every bound characteristic type. -/
structure Listener (V : Type) where
  capability : String
  timeout : Nat
  immediate : Bool
  getter : Option (V → V)
  charTypes : List String

/-- JS `promise.catch(() => {})`: a rejected device write is swallowed. -/
def catchIgnore {ε : Type} : Except ε Unit → Except ε Unit
  | .ok u => .ok u
  | .error _ => .ok ()

/-- Behaviour of an installed read handler (lines 164–169):

```js
characteristic.onGet(async () => {
  const rawValue = device.capabilitiesObj?.[capability]?.value;
  if (rawValue === undefined) throw Error(`missing capability value for ...`);
  return characteristic.validateUserInput(await getter(rawValue, ...));
});
```

`validate` is the target protocol's `validateUserInput`, indexed by
characteristic type. -/
def runReadHandler {V : Type} (validate : String → V → V) (rb : ReadBinding V)
    (d : Device V) : Except String V :=
  match rawCapValue d rb.capability with
  | none => .error ("missing capability value for " ++ rb.capability)
  | some raw => .ok (validate rb.charType (rb.getter raw))

/-- Behaviour of an installed write handler (lines 171–177):

```js
characteristic.onSet(debounce(async rawValue => {
  const value = await setter(rawValue, ...);
  await this.#device.setCapabilityValue(capability, value).catch(() => {});
  this.updateCapability(capability, value);
}, debounceTimeout, debounceImmediate));
```

`devWrite` is the external `setCapabilityValue`; its rejection is an
`Except.error` that `catchIgnore` swallows.  The result is the device state
after the local cache update. -/
def runWriteHandler {V : Type} (wb : WriteBinding V)
    (devWrite : String → V → Except String Unit) (raw : V) (d : Device V) :
    Except String (Device V) :=
  let value := wb.setter raw
  match catchIgnore (devWrite wb.capability value) with
  | .ok _ => .ok (updateCapability d wb.capability value)
  | .error e => .error e

/-- Lines 145–195, for one characteristic binding of one capability: select
debounce parameters and getter/setter, construct one `BoundChar` per listed
characteristic type, and register a single debounced capability subscription.

```js
const debounceTimeout   = characteristicMap.debounce || 0;
const debounceImmediate = characteristicMap.debounce ? false : true;
...
if (! isTrigger) {
  if (getter) characteristic.onGet(...);
  if (setter) characteristic.onSet(debounce(..., debounceTimeout, debounceImmediate));
}
...
this.#listeners.push(device.makeCapabilityInstance(capability,
  debounce(..., debounceTimeout, debounceImmediate)));
```
-/
def processCharacteristicMap {V : Type} (device : Device V) (capability : String)
    (isTrigger : Bool) (hasOnUpdate : Bool) (cm : CharacteristicMap V) :
    List (BoundChar V) × Listener V :=
  let debounceTimeout := cm.debounce.getD 0
  let debounceImmediate := cm.debounce.getD 0 == 0
  let getter := selectedGetter device capability cm
  let setter := selectedSetter device capability cm
  let chars := cm.characteristics.flat.map (fun klass =>
    ({ charType := klass
       hasChangeHook := hasOnUpdate
       readB :=
         if isTrigger then none
         else getter.map (fun g =>
           { getter := g, capability := capability, charType := klass })
       writeB :=
         if isTrigger then none
         else setter.map (fun s =>
           { setter := s, capability := capability
             timeout := debounceTimeout, immediate := debounceImmediate }) } : BoundChar V))
  (chars,
    { capability := capability, timeout := debounceTimeout, immediate := debounceImmediate
      getter := getter, charTypes := cm.characteristics.flat })

/-- One capability map of the external catalog, at the shape the binder
consumes.  The `onService`/`onUpdate` hooks are tracked by presence only. -/
structure CapMap (V : Type) where
  name : String
  group : Bool
  service : String
  adaptiveLighting : Bool
  required : List (String × OneOrMany (CharacteristicMap V))
  optional : List (String × OneOrMany (CharacteristicMap V))
  triggers : List (String × OneOrMany (CharacteristicMap V))
  hasOnService : Bool
  hasOnUpdate : Bool
  category : Option Nat

/-- One HomeKit service instance: type, subtype discriminator, bound
characteristics. -/
structure ServiceInst (V : Type) where
  svcType : String
  subtype : String
  chars : List (BoundChar V)

/-- The constructed HomeKit accessory.  `controllers` counts configured
adaptive-lighting controllers. -/
structure Accessory (V : Type) where
  name : String
  accId : String
  category : Option Nat
  services : List (ServiceInst V)
  controllers : Nat

/-- Source `createAccessory()` (lines 49–66): a fresh accessory carrying only its
`AccessoryInformation` service. -/
def createAccessory {V : Type} (device : Device V) (category : Option Nat) : Accessory V :=
  { name := device.name
    accId := device.id
    category := category
    services := [{ svcType := "AccessoryInformation", subtype := "", chars := [] }]
    controllers := 0 }

/-- Lookup `accessory.getService(type)`: index of the first service of the given
type. -/
def findService {V : Type} (acc : Accessory V) (svcType : String) : Option Nat :=
  (acc.services.findIdx? (fun s => s.svcType = svcType))

/-- Append freshly bound characteristics to the service at index `i`. -/
def addCharsToService {V : Type} (acc : Accessory V) (i : Nat) (cs : List (BoundChar V)) :
    Accessory V :=
  { acc with services := acc.services.modify (fun s => { s with chars := s.chars ++ cs }) i }

/-- State threaded through the binder's loops: the accessory under
construction and the subscriptions registered so far. -/
structure BuildState (V : Type) where
  acc : Accessory V
  listeners : List (Listener V)

/-- Body of the `for (const prefix of capabilities)` loop (lines 123–196) for
a single base capability: resolve the binding (`required || optional ||
triggers`), lazily create or reuse the service, then process each
characteristic binding.  `svc` is the `let service` variable of the enclosing
group loop (an index into the accessory's services). -/
def bindCapability {V : Type} (device : Device V) (map : CapMap V) (group : String)
    (st : BuildState V × Option Nat) (pfx : String) : BuildState V × Option Nat :=
  let capability := pfx ++ (if group ≠ "" then "." ++ group else "")
  match (jsGet map.required pfx).orElse (fun _ =>
        (jsGet map.optional pfx).orElse (fun _ => jsGet map.triggers pfx)) with
  | none => st
  | some characteristicMaps =>
      let isTrigger := (jsGet map.triggers pfx).isSome
      let (bs, svc) := st
      let (acc, svcIdx) : Accessory V × Nat :=
        match svc with
        | some i => (bs.acc, i)
        | none =>
            match findService bs.acc map.service with
            | some i =>
                if map.group then
                  ({ bs.acc with services := bs.acc.services ++
                      [{ svcType := map.service
                         subtype := if group = "" then "default" else group
                         chars := [] }] }, bs.acc.services.length)
                else (bs.acc, i)
            | none =>
                ({ bs.acc with services := bs.acc.services ++
                    [{ svcType := map.service
                       subtype := if group = "" then "default" else group
                       chars := [] }] }, bs.acc.services.length)
      let step := fun (s : BuildState V) (cm : CharacteristicMap V) =>
        let (cs, listener) :=
          processCharacteristicMap device capability isTrigger map.hasOnUpdate cm
        { acc := addCharsToService s.acc svcIdx cs
          listeners := s.listeners ++ [listener] }
      (characteristicMaps.flat.foldl step { acc := acc, listeners := bs.listeners },
       some svcIdx)

/-- Does the service at index `i` expose a characteristic of type `t`? -/
def serviceHasChar {V : Type} (acc : Accessory V) (i : Option Nat) (t : String) : Bool :=
  match i with
  | none => false
  | some i =>
      match acc.services.get? i with
      | none => false
      | some s => s.chars.any (fun c => c.charType = t)

/-- Body of the group loop (lines 118–221): bind every base capability of the
group, then optionally configure adaptive lighting for the service created for
this group (lines 200–220; the controller is counted when the service exposes
both a brightness and a color-temperature characteristic, otherwise the
feature is skipped). -/
def bindGroup {V : Type} (device : Device V) (map : CapMap V) (bs : BuildState V)
    (entry : String × List String) : BuildState V :=
  let (bs, svc) := entry.2.foldl (bindCapability device map entry.1) (bs, none)
  if map.adaptiveLighting ∧ svc.isSome then
    if serviceHasChar bs.acc svc "Brightness" ∧ serviceHasChar bs.acc svc "ColorTemperature"
    then { bs with acc := { bs.acc with controllers := bs.acc.controllers + 1 } }
    else bs
  else bs

/-- The map loop of `accessorize` (lines 113–222). -/
def buildAccessory {V : Type} (device : Device V) (maps : List (CapMap V))
    (category : Option Nat) : Accessory V × List (Listener V) :=
  let groups := groupCapabilitiesOf (visibleCapabilities device)
  let bs := maps.foldl
    (fun bs map =>
      (if map.group then groups else flattenGroups groups).foldl (bindGroup device map) bs)
    { acc := createAccessory device category, listeners := [] }
  (bs.acc, bs.listeners)

/-- The per-device handle (`MappedDevice`): device and class/capability
snapshots, accumulated maps, the lazily constructed accessory, the registered
subscriptions. -/
structure MappedDevice (V : Type) where
  device : Device V
  devClass : String
  capabilities : List String
  maps : List (CapMap V)
  category : Option Nat
  accessory : Option (Accessory V)
  listeners : List (Listener V)

/-- The `MappedDevice` constructor (lines 15–24). -/
def MappedDevice.make {V : Type} (device : Device V) (map : CapMap V) : MappedDevice V :=
  { device := device
    devClass := device.devClass
    capabilities := device.capabilities
    maps := [map]
    category := map.category
    accessory := none
    listeners := [] }

/-- Source `accessorize()` (lines 103–225): return the cached accessory if one
exists, otherwise build it, cache it and record the new subscriptions. -/
def MappedDevice.accessorize {V : Type} (m : MappedDevice V) :
    Accessory V × MappedDevice V :=
  match m.accessory with
  | some cached => (cached, m)
  | none =>
      let (acc, ls) := buildAccessory m.device m.maps m.category
      (acc, { m with accessory := some acc, listeners := m.listeners ++ ls })

/-! ## Handle teardown and debounce timers (`cleanup()`, lines 38–40)

```js
cleanup() {
  this.#listeners.forEach(listener => listener.destroy());
}
```

A small discrete-event system for the lifetime of a handle's capability
subscriptions.  Each subscription wraps its callback in the `debounce`
utility; with a zero interval the callback fires immediately on delivery
(leading edge), with a non-zero interval delivery only (re)arms a pending
trailing-edge timer that fires the callback later.

Modelled from the spec: the `debounce` wrapper (§4.3: interval 0 is
leading-edge/immediate, a non-zero interval coalesces with trailing-edge
firing) and the subscription handle's `destroy()` (§6: a disposable handle
that stops the delivery of further capability events to its callback) are
external collaborators whose code is not among the analyzed sources.
`cleanup` itself is from the source: it calls `destroy()` on every listener
and nothing else — in particular it never touches the debounce wrapper's
pending timer. -/

structure LState where
  active : Bool
  immediate : Bool
  pending : Bool
deriving DecidableEq

structure HandleSys where
  listeners : List LState
  cleanedUp : Bool
  firedAfterCleanup : Bool
deriving DecidableEq

inductive HandleEv : Type
  | deliver : Nat → HandleEv
  | timerFire : Nat → HandleEv
  | cleanup : HandleEv

/-- Record a callback invocation: only its position relative to `cleanup()`
matters here. -/
def fireCb (s : HandleSys) : HandleSys :=
  if s.cleanedUp then { s with firedAfterCleanup := true } else s

def modifyIdx {α : Type} : List α → Nat → (α → α) → List α
  | [], _, _ => []
  | x :: t, 0, f => f x :: t
  | x :: t, Nat.succ n, f => x :: modifyIdx t n f

/-- One step of the handle system.
* `deliver i`: a capability event reaches subscription `i`; if it is still
  active, an immediate wrapper fires at once, a trailing wrapper (re)arms its
  pending timer.  A destroyed subscription delivers nothing.
* `timerFire i`: the pending trailing-edge timer of subscription `i` expires
  and fires the coalesced callback.  Nothing in `cleanup()` cancels it.
* `cleanup`: `forEach(listener => listener.destroy())`. -/
def handleStep (s : HandleSys) : HandleEv → HandleSys
  | .deliver i =>
      match s.listeners.get? i with
      | none => s
      | some l =>
          if l.active then
            if l.immediate then fireCb s
            else { s with listeners := modifyIdx s.listeners i (fun l => { l with pending := true }) }
          else s
  | .timerFire i =>
      match s.listeners.get? i with
      | none => s
      | some l =>
          if l.pending then
            fireCb { s with listeners := modifyIdx s.listeners i (fun l => { l with pending := false }) }
          else s
  | .cleanup =>
      { s with listeners := s.listeners.map (fun l => { l with active := false })
               cleanedUp := true }

def handleRun (s : HandleSys) (evs : List HandleEv) : HandleSys :=
  evs.foldl handleStep s

/-! ## `addDeviceToHomeKit` (app file lines 319–361)

```js
async addDeviceToHomeKit(device) {
  if (this.isVirtualDevice(device)) return;
  if (! device || ! device.ready || ! device.capabilitiesObj) { ...; return false; }
  if (! this.#exposed.has(device.id)) {
    const exposureState = this.homey.settings.get('Settings.NewDevicePublish') ?? true;
    this.#exposed.set(device.id, exposureState);
  }
  const mappedDevice = DeviceMapper.mapDevice(device);
  if (mappedDevice) {
    if (this.#exposed.get(device.id) !== false) {
      try { this.#bridge.addBridgedAccessory(mappedDevice.accessorize()); }
      catch(e) { ...; return false; }
    } else { ... }
    return true;
  }
  this.#exposed.set(device.id, false);
  return false;
}
```
-/

/-- Source `isVirtualDevice(device)`:
`!!device?.driverId?.startsWith('homey:app:name.klep.homekitty:')`
(`String#startsWith` is the list prefix test on the character data). -/
def isVirtualDevice {V : Type} (d : Device V) : Bool :=
  match d.driverId with
  | none => false
  | some s => "homey:app:name.klep.homekitty:".data.isPrefixOf s.data

/-- Modelled from the spec: `DeviceMapper.mapDevice` lives in
`lib/device-mapper`, which is not among the analyzed sources; per §7 it
reports an unmappable device as "not mapped" (a falsy result).  Its outcome
is therefore passed in as the `mapped` argument, `none` meaning no capability
map applies.  Likewise `bridge.addBridgedAccessory` may throw (target
protocol unavailable, accessory limit); `bridgeAddOk = false` is that throw.

The result is the function's return value (`none` for the bare `return`)
paired with the ledger after the call. -/
def addDeviceToHomeKit {V : Type} (exposed : StorageBackedMap Bool)
    (newDevicePublish : Option Bool) (device : Device V)
    (mapped : Option (MappedDevice V)) (bridgeAddOk : Bool) :
    Option Bool × StorageBackedMap Bool :=
  if isVirtualDevice device then (none, exposed)
  else if !device.ready || !(device.capabilitiesObj.isSome) then (some false, exposed)
  else
    let exposed :=
      if !(exposed.has device.id) then exposed.set device.id (newDevicePublish.getD true)
      else exposed
    match mapped with
    | some _ =>
        if exposed.get device.id ≠ some false then
          if bridgeAddOk then (some true, exposed) else (some false, exposed)
        else (some true, exposed)
    | none => (some false, exposed.set device.id false)

/-! ## Concrete fixtures used by the witnesses -/

/-- A dimmable light with `dim = 0.4`, the device of the spec's read/write
scenarios. -/
def sampleDevice : Device ℚ :=
  { id := "dev-1"
    name := "Lamp"
    devClass := "light"
    driverId := some "homey:app:vendor:driver"
    ready := true
    capabilities := ["dim"]
    capabilitiesObj := some [("dim", some (2/5))]
    uiComponents := some [["dim"]] }

/-- Binding `dim → Brightness` with getter `v => v*100`, setter `v => v/100`, no
debounce. -/
def sampleBinding : CharacteristicMap ℚ :=
  { characteristics := .one "Brightness"
    get := some (.one (fun v => v * 100))
    set := some (.one (fun v => v / 100))
    debounce := none }

/-- A binding with a 300 ms trailing debounce. -/
def sampleTrailing : CharacteristicMap ℚ :=
  { characteristics := .one "Target"
    get := none
    set := some (.one (fun v => v))
    debounce := some 300 }

/-- A one-map catalog binding `dim` on a Lightbulb service. -/
def sampleMap : CapMap ℚ :=
  { name := "lightbulb"
    group := false
    service := "Lightbulb"
    adaptiveLighting := false
    required := [("dim", .one sampleBinding)]
    optional := []
    triggers := []
    hasOnService := false
    hasOnUpdate := false
    category := some 5 }

def sampleAccessory : Accessory ℚ :=
  createAccessory sampleDevice (some 5)

/-- One trailing-debounced subscription, idle. -/
def sampleHandleSys : HandleSys :=
  { listeners := [{ active := true, immediate := false, pending := false }]
    cleanedUp := false
    firedAfterCleanup := false }

/-! ## Association-list lemmas -/

theorem jsGet_jsSet {V : Type} (l : List (String × V)) (k k' : String) (v : V) :
    jsGet (jsSet l k v) k' = if k = k' then some v else jsGet l k' := by
  induction l with
  | nil => by_cases h : k = k' <;> simp [jsSet, jsGet, h]
  | cons p t ih =>
      obtain ⟨a, b⟩ := p
      by_cases hak : a = k
      · subst hak
        by_cases h : a = k' <;> simp [jsSet, jsGet, h]
      · by_cases h : a = k'
        · subst h
          have hk : ¬ k = a := fun hh => hak hh.symm
          simp [jsSet, jsGet, hak, hk]
        · simp [jsSet, jsGet, hak, h, ih]

theorem jsGet_mem {V : Type} {l : List (String × V)} {k : String} {v : V}
    (h : jsGet l k = some v) : (k, v) ∈ l := by
  induction l with
  | nil => simp [jsGet] at h
  | cons p t ih =>
      obtain ⟨a, b⟩ := p
      by_cases hak : a = k
      · subst hak
        simp [jsGet] at h
        simp [h]
      · simp [jsGet, hak] at h
        exact List.mem_cons_of_mem _ (ih h)

theorem jsGet_of_mem_nodup {V : Type} {l : List (String × V)}
    (hnd : (l.map Prod.fst).Nodup) {k : String} {v : V} (h : (k, v) ∈ l) :
    jsGet l k = some v := by
  induction l with
  | nil => simp at h
  | cons p t ih =>
      obtain ⟨a, b⟩ := p
      simp only [List.map_cons, List.nodup_cons] at hnd
      rcases List.mem_cons.mp h with h1 | h1
      · obtain ⟨rfl, rfl⟩ := Prod.mk.injEq .. ▸ h1
        · simp [jsGet]
      · have hak : ¬ a = k := by
          intro hh
          subst hh
          exact hnd.1 (List.mem_map.mpr ⟨(a, v), h1, rfl⟩)
        simp [jsGet, hak]
        exact ih hnd.2 h1

theorem mem_keys_of_jsGet_isSome {V : Type} {l : List (String × V)} {k : String}
    (h : (jsGet l k).isSome) : k ∈ l.map Prod.fst := by
  cases hv : jsGet l k with
  | none => rw [hv] at h; simp at h
  | some v => exact List.mem_map.mpr ⟨(k, v), jsGet_mem hv, rfl⟩

/-! ## Claim C4 — ledger dirty-bit discipline -/

/-- Claim C4: `set(id, v)` marks the ledger dirty only if the stored value for
`id` actually changes (setting an existing key to an equal value leaves the
dirty bit unchanged), and `delete(id)` marks it dirty only if `id` was present
(deleting an absent key leaves the dirty bit unchanged); when a change does
occur the dirty bit becomes `true`. -/
theorem ledger_dirty_only_on_change {V : Type} [DecidableEq V]
    (s : StorageBackedMap V) (k : String) (v : V) :
    (s.get k = some v → (s.set k v).isDirty = s.isDirty)
  ∧ (s.get k ≠ some v → (s.set k v).isDirty = true)
  ∧ (s.has k = false → (s.del k).isDirty = s.isDirty)
  ∧ (s.has k = true → (s.del k).isDirty = true) := by
  refine ⟨fun h => ?_, fun h => ?_, fun h => ?_, fun h => ?_⟩ <;>
    simp_all [StorageBackedMap.set, StorageBackedMap.del, StorageBackedMap.get,
      StorageBackedMap.has, StorageBackedMap.isDirty]

/-- Witness for C4, the spec's scenario: a ledger loaded as
`{"dev-1": true}`, then `delete("dev-2")` of an absent key — the dirty bit is
unchanged (hence still `false`). -/
theorem ledger_dirty_only_on_change_witness :
    ((StorageBackedMap.load [("dev-1", true)]).del "dev-2").isDirty
      = (StorageBackedMap.load [("dev-1", true)]).isDirty :=
  (ledger_dirty_only_on_change (StorageBackedMap.load [("dev-1", true)]) "dev-2" true).2.2.1
    (by decide)

/-! ## Claim C5 — `setAll` and the save count -/

theorem setAll_fold_get {V : Type} [DecidableEq V] (v : V) (ks : List String) :
    ∀ (s : StorageBackedMap V) (k : String),
    (ks.foldl (fun t k' => t.set k' v) s).get k = if k ∈ ks then some v else s.get k := by
  induction ks with
  | nil => intro s k; simp
  | cons k' ks ih =>
      intro s k
      simp only [List.foldl_cons]
      rw [ih]
      have hg : (s.set k' v).get k = if k' = k then some v else s.get k := by
        simp [StorageBackedMap.set, StorageBackedMap.get, jsGet_jsSet]
      by_cases hk : k ∈ ks
      · simp [hk, List.mem_cons]
      · rw [if_neg hk, hg]
        by_cases h : k' = k
        · subst h
          simp [List.mem_cons]
        · have : ¬ k ∈ k' :: ks := by
            intro hc
            rcases List.mem_cons.mp hc with rfl | hc
            · exact h rfl
            · exact hk hc
          simp [h, this]

theorem setAll_fold_dirty {V : Type} [DecidableEq V] (v : V) (ks : List String) :
    ∀ (s : StorageBackedMap V),
    ((ks.foldl (fun t k' => t.set k' v) s).dirty = true ↔
      (s.dirty = true ∨ ∃ k ∈ ks, s.get k ≠ some v)) := by
  induction ks with
  | nil => intro s; simp
  | cons k' ks ih =>
      intro s
      simp only [List.foldl_cons]
      rw [ih]
      have hg : ∀ k, (s.set k' v).get k = if k' = k then some v else s.get k := by
        intro k
        simp [StorageBackedMap.set, StorageBackedMap.get, jsGet_jsSet]
      constructor
      · rintro (hd | ⟨k, hk, hne⟩)
        · have : s.dirty = true ∨ ¬ s.get k' = some v := by
            simpa [StorageBackedMap.set, StorageBackedMap.get, Bool.or_eq_true] using hd
          rcases this with h | h
          · exact Or.inl h
          · exact Or.inr ⟨k', List.mem_cons_self k' ks, h⟩
        · rw [hg k] at hne
          by_cases h : k' = k
          · rw [if_pos h] at hne
            exact absurd rfl hne
          · rw [if_neg h] at hne
            exact Or.inr ⟨k, List.mem_cons_of_mem _ hk, hne⟩
      · rintro (hd | ⟨k, hk, hne⟩)
        · left
          simp [StorageBackedMap.set, hd]
        · by_cases h : k' = k
          · left
            subst h
            simp [StorageBackedMap.set, StorageBackedMap.get, Bool.or_eq_true]
            exact Or.inr hne
          · right
            rcases List.mem_cons.mp hk with h1 | h1
            · exact absurd h1.symm h
            · refine ⟨k, h1, ?_⟩
              rw [hg k, if_neg h]
              exact hne

theorem exists_key_ne_iff {V : Type} [DecidableEq V] (s : StorageBackedMap V)
    (hnd : (s.entries.map Prod.fst).Nodup) (v : V) :
    (∃ k ∈ s.entries.map Prod.fst, s.get k ≠ some v) ↔ (∃ p ∈ s.entries, p.2 ≠ v) := by
  constructor
  · rintro ⟨k, hk, hne⟩
    obtain ⟨p, hp, rfl⟩ := List.mem_map.mp hk
    refine ⟨p, hp, fun hv => hne ?_⟩
    have hget : jsGet s.entries p.1 = some p.2 :=
      jsGet_of_mem_nodup hnd (show (p.1, p.2) ∈ s.entries by simpa using hp)
    rw [StorageBackedMap.get, hget, hv]
  · rintro ⟨p, hp, hne⟩
    refine ⟨p.1, List.mem_map.mpr ⟨p, hp, rfl⟩, ?_⟩
    have hget : jsGet s.entries p.1 = some p.2 :=
      jsGet_of_mem_nodup hnd (show (p.1, p.2) ∈ s.entries by simpa using hp)
    rw [StorageBackedMap.get, hget]
    simp [hne]

/-- Claim C5 counterexample: a one-key ledger whose key is already `true` and
whose dirty bit is clear.  `setAll(true)` performs zero calls to the
persistence sink, not exactly one: every `set` stores an equal value, so the
ledger stays clean and `save()` returns without calling the sink. -/
theorem ledger_setAll_single_save_counterexample :
    (StorageBackedMap.load [("dev-1", true)]).entries ≠ []
  ∧ ((StorageBackedMap.load [("dev-1", true)]).setAll true).2 = 0 :=
  ⟨by decide, by decide⟩

/-- Claim C5 (amended): for every ledger state with at least one key,
`setAll(true)` sets every existing key to `true`, and it triggers exactly one
call to the external persistence sink when the ledger was already dirty or
some key's stored value was not `true`, and no call at all otherwise. -/
theorem ledger_setAll_amended {V : Type} [DecidableEq V] (s : StorageBackedMap V) (v : V)
    (hnd : (s.entries.map Prod.fst).Nodup) (_hne : s.entries ≠ []) :
    (∀ k, s.has k = true → (s.setAll v).1.get k = some v)
  ∧ ((s.setAll v).2 = if s.isDirty = true ∨ ∃ p ∈ s.entries, p.2 ≠ v then 1 else 0) := by
  unfold StorageBackedMap.setAll
  constructor
  · intro k hk
    have hmem : k ∈ s.entries.map Prod.fst :=
      mem_keys_of_jsGet_isSome (by simpa [StorageBackedMap.has, jsHas] using hk)
    have hsave : ∀ (t : StorageBackedMap V), t.save.1.get k = t.get k := by
      intro t
      unfold StorageBackedMap.save
      split <;> simp [StorageBackedMap.get]
    rw [hsave, setAll_fold_get, if_pos hmem]
  · have hcount : ∀ (t : StorageBackedMap V), t.save.2 = if t.dirty = true then 1 else 0 := by
      intro t
      unfold StorageBackedMap.save
      split <;> simp_all
    rw [hcount]
    have hiff :
        ((s.entries.map Prod.fst).foldl (fun t k' => t.set k' v) s).dirty = true ↔
          (s.isDirty = true ∨ ∃ p ∈ s.entries, p.2 ≠ v) :=
      (setAll_fold_dirty v _ s).trans
        (or_congr Iff.rfl (exists_key_ne_iff s hnd v))
    rw [if_congr hiff rfl rfl]

/-- Witness for the amended C5: loading `{"dev-1": false}` and calling
`setAll(true)` leaves `dev-1` mapped to `true`. -/
theorem ledger_setAll_amended_witness :
    ((StorageBackedMap.load [("dev-1", false)]).setAll true).1.get "dev-1" = some true :=
  (ledger_setAll_amended (StorageBackedMap.load [("dev-1", false)]) true (by decide)
    (by decide)).1 "dev-1" (by decide)

/-! ## Claim C3 — how the grouper splits identifiers -/

theorem splitOnChar_ne_nil (sep : Char) (l : List Char) : splitOnChar sep l ≠ [] := by
  cases l with
  | nil => simp [splitOnChar]
  | cons c rest =>
      dsimp [splitOnChar]
      split <;> simp

theorem splitOnChar_headD (sep : Char) (l : List Char) :
    (splitOnChar sep l).headD [] = l.takeWhile (fun c => c != sep) := by
  induction l with
  | nil => rfl
  | cons c rest ih =>
      dsimp [splitOnChar]
      rw [List.headD_eq_head?_getD] at ih
      by_cases h : c = sep
      · simp [h, List.takeWhile_cons]
      · simp [h, List.takeWhile_cons, ih]

theorem getD_one_eq_tail_headD {α : Type} (l : List α) (d : α) :
    l.getD 1 d = l.tail.headD d := by
  cases l with
  | nil => rfl
  | cons x xs => cases xs <;> rfl

theorem splitOnChar_getD_one (sep : Char) (l : List Char) :
    (splitOnChar sep l).getD 1 [] =
      ((l.dropWhile (fun c => c != sep)).drop 1).takeWhile (fun c => c != sep) := by
  induction l with
  | nil => rfl
  | cons c rest ih =>
      dsimp [splitOnChar]
      by_cases h : c = sep
      · rw [if_pos h]
        have h1 : ([] :: splitOnChar sep rest).getD 1 [] = (splitOnChar sep rest).headD [] := by
          cases hr : splitOnChar sep rest with
          | nil => exact absurd hr (splitOnChar_ne_nil sep rest)
          | cons a t => rfl
        rw [h1, splitOnChar_headD]
        simp [List.dropWhile_cons, h]
      · rw [if_neg h]
        have h1 :
            ((c :: (splitOnChar sep rest).headD []) :: (splitOnChar sep rest).tail).getD 1 []
              = (splitOnChar sep rest).getD 1 [] := by
          rw [getD_one_eq_tail_headD]
          exact (getD_one_eq_tail_headD (splitOnChar sep rest) []).symm
        rw [h1, ih]
        simp [List.dropWhile_cons, h]

theorem map_mk_getD {l : List (List Char)} {i : Nat} :
    (l.map String.mk).getD i "" = String.mk (l.getD i []) := by
  simp only [List.getD, List.get?_eq_getElem?, List.getElem?_map]
  cases h : l[i]? with
  | none => rfl
  | some a => rfl

theorem parseCap_eq (cap : String) :
    parseCap cap =
      ( String.mk (cap.data.takeWhile (fun c => c != '.')),
        String.mk (((cap.data.dropWhile (fun c => c != '.')).drop 1).takeWhile
          (fun c => c != '.')) ) := by
  unfold parseCap jsSplitDot
  congr 1
  · cases hr : splitOnChar '.' cap.data with
    | nil => exact absurd hr (splitOnChar_ne_nil '.' cap.data)
    | cons a t =>
        have hh := splitOnChar_headD '.' cap.data
        rw [hr] at hh
        have ha : a = cap.data.takeWhile (fun c => c != '.') := by simpa using hh
        simp [ha]
  · rw [map_mk_getD, splitOnChar_getD_one]

/-- Claim C3 counterexample: the source splits on every dot, not only the
first one.  For the identifier `"a.b.c"` the grouper produces group key `"b"`
(the segment between the first and second dot), while the claim requires the
entire remainder `"b.c"`. -/
theorem groupCapabilities_multidot_counterexample :
    groupCapabilitiesOf ["a.b.c"] = [("b", ["a"])] ∧ ("b" : String) ≠ "b.c" :=
  ⟨rfl, by decide⟩

/-- Claim C3 (amended): for every visible capability identifier, the base
capability is everything before the first `.`, and the group key is the
segment between the first and the second `.` (the whole remainder when there
is only one `.`, the empty string when there is none); any further
`.`-separated segments are discarded. -/
theorem groupCapabilities_split_amended (cap : String) :
    groupCapabilitiesOf [cap] =
      [( String.mk (((cap.data.dropWhile (fun c => c != '.')).drop 1).takeWhile
           (fun c => c != '.')),
         [String.mk (cap.data.takeWhile (fun c => c != '.'))] )] := by
  unfold groupCapabilitiesOf
  simp only [List.foldl_cons, List.foldl_nil, parseCap_eq]
  rfl

/-! ## Claim C1 — flattening picks a unique, shortest-named group -/

theorem mem_filter_notSeen {seen caps : List String} {cap : String} :
    cap ∈ caps.filter (fun c => ! seen.contains c) ↔ (cap ∈ caps ∧ ¬ cap ∈ seen) := by
  simp [List.mem_filter, List.contains]

theorem countContaining_cons (cap : String) (p : String × List String)
    (t : List (String × List String)) :
    countContaining cap (p :: t) = (if cap ∈ p.2 then 1 else 0) + countContaining cap t := by
  by_cases h : cap ∈ p.2
  · have hb : p.2.contains cap = true := by simp [List.contains, h]
    simp [countContaining, List.filter_cons, hb, h, Nat.add_comm]
  · have hb : ¬ p.2.contains cap = true := by simp [List.contains, h]
    simp [countContaining, List.filter_cons, hb, h]

theorem flattenGo_count_seen (groups : List (String × List String)) (cap : String) :
    ∀ (names seen : List String), cap ∈ seen →
      countContaining cap (flattenGo groups seen names) = 0 := by
  intro names
  induction names with
  | nil => intro seen _; rfl
  | cons g rest ih =>
      intro seen h
      simp only [flattenGo]
      rw [countContaining_cons]
      have hk : ¬ cap ∈ (lookupGroup groups g).filter (fun c => ! seen.contains c) := by
        rw [mem_filter_notSeen]
        rintro ⟨-, hns⟩
        exact hns h
      rw [if_neg hk, ih _ (List.mem_append_left _ h)]

theorem flattenGo_count_new (groups : List (String × List String)) (cap : String) :
    ∀ (names seen : List String), ¬ cap ∈ seen →
      countContaining cap (flattenGo groups seen names)
        = if (∃ n ∈ names, cap ∈ lookupGroup groups n) then 1 else 0 := by
  intro names
  induction names with
  | nil => intro seen _; simp [flattenGo, countContaining]
  | cons g rest ih =>
      intro seen hs
      simp only [flattenGo]
      rw [countContaining_cons]
      by_cases hc : cap ∈ lookupGroup groups g
      · have hk : cap ∈ (lookupGroup groups g).filter (fun c => ! seen.contains c) :=
          mem_filter_notSeen.mpr ⟨hc, hs⟩
        rw [if_pos hk, flattenGo_count_seen groups cap rest _ (List.mem_append_right _ hk)]
        rw [if_pos ⟨g, List.mem_cons_self g rest, hc⟩]
      · have hk : ¬ cap ∈ (lookupGroup groups g).filter (fun c => ! seen.contains c) :=
          fun h => hc (mem_filter_notSeen.mp h).1
        have hs' : ¬ cap ∈ seen ++ (lookupGroup groups g).filter (fun c => ! seen.contains c) := by
          intro h
          rcases List.mem_append.mp h with h | h
          exacts [hs h, hk h]
        rw [if_neg hk, ih _ hs']
        have hiff : (∃ n ∈ rest, cap ∈ lookupGroup groups n)
            ↔ (∃ n ∈ g :: rest, cap ∈ lookupGroup groups n) := by
          constructor
          · rintro ⟨n, hn, h⟩
            exact ⟨n, List.mem_cons_of_mem _ hn, h⟩
          · rintro ⟨n, hn, h⟩
            rcases List.mem_cons.mp hn with rfl | hn
            · exact absurd h hc
            · exact ⟨n, hn, h⟩
        rw [Nat.zero_add, if_congr hiff rfl rfl]

theorem flattenGo_min (groups : List (String × List String)) (cap : String) :
    ∀ (names seen : List String), List.Sorted lenLE names →
      ∀ q ∈ flattenGo groups seen names, cap ∈ q.2 →
        q.1 ∈ names ∧ cap ∈ lookupGroup groups q.1 ∧ ¬ cap ∈ seen
        ∧ ∀ n ∈ names, cap ∈ lookupGroup groups n → q.1.length ≤ n.length := by
  intro names
  induction names with
  | nil =>
      intro seen _ q hq
      simp [flattenGo] at hq
  | cons g rest ih =>
      intro seen hsort q hq hcap
      simp only [flattenGo] at hq
      rcases List.mem_cons.mp hq with rfl | hq
      · have h2 := mem_filter_notSeen.mp hcap
        refine ⟨List.mem_cons_self g rest, h2.1, h2.2, ?_⟩
        intro n hn _
        rcases List.mem_cons.mp hn with rfl | hn
        · exact Nat.le_refl _
        · exact List.rel_of_sorted_cons hsort n hn
      · obtain ⟨h1, h2, h3, h4⟩ :=
          ih _ (List.sorted_cons.mp hsort).2 q hq hcap
        have hnseen : ¬ cap ∈ seen := fun h => h3 (List.mem_append_left _ h)
        have hnkept : ¬ cap ∈ (lookupGroup groups g).filter (fun c => ! seen.contains c) :=
          fun h => h3 (List.mem_append_right _ h)
        have hng : ¬ cap ∈ lookupGroup groups g :=
          fun h => hnkept (mem_filter_notSeen.mpr ⟨h, hnseen⟩)
        refine ⟨List.mem_cons_of_mem _ h1, h2, hnseen, ?_⟩
        intro n hn hcn
        rcases List.mem_cons.mp hn with rfl | hn
        · exact absurd hcn hng
        · exact h4 n hn hcn

/-- Claim C1: for every input group mapping, `flattenGroups` produces a group
mapping in which each base capability appears in exactly one group's output
list, and the group chosen for a capability occurring in several groups is a
shortest-named group key among those containing it, with the empty group key
(length 0) winning over any suffixed group. -/
theorem flattenGroups_unique_shortest (groups : List (String × List String))
    (hnd : (groups.map Prod.fst).Nodup) (cap : String)
    (hcap : ∃ p ∈ groups, cap ∈ p.2) :
    countContaining cap (flattenGroups groups) = 1
  ∧ ∀ q ∈ flattenGroups groups, cap ∈ q.2 →
      (∃ l, (q.1, l) ∈ groups ∧ cap ∈ l)
      ∧ (∀ p ∈ groups, cap ∈ p.2 → q.1.length ≤ p.1.length)
      ∧ ((∃ l0, ("", l0) ∈ groups ∧ cap ∈ l0) → q.1 = "") := by
  obtain ⟨p0, hp0, hc0⟩ := hcap
  have hlook : ∀ {p : String × List String}, p ∈ groups → lookupGroup groups p.1 = p.2 := by
    intro p hp
    have h := jsGet_of_mem_nodup hnd (show (p.1, p.2) ∈ groups by simpa using hp)
    simp [lookupGroup, h]
  constructor
  · unfold flattenGroups
    rw [flattenGo_count_new groups cap _ [] (by simp)]
    have hex : ∃ n ∈ List.insertionSort lenLE (groups.map Prod.fst),
        cap ∈ lookupGroup groups n := by
      refine ⟨p0.1, ?_, ?_⟩
      · exact (List.mem_insertionSort lenLE).mpr (List.mem_map.mpr ⟨p0, hp0, rfl⟩)
      · rw [hlook hp0]
        exact hc0
    rw [if_pos hex]
  · intro q hq hcapq
    unfold flattenGroups at hq
    have hsort : List.Sorted lenLE (List.insertionSort lenLE (groups.map Prod.fst)) :=
      List.sorted_insertionSort lenLE _
    obtain ⟨h1, h2, _h3, h4⟩ := flattenGo_min groups cap _ [] hsort q hq hcapq
    have hq1 : q.1 ∈ groups.map Prod.fst := (List.mem_insertionSort lenLE).mp h1
    obtain ⟨pq, hpq, hpq1⟩ := List.mem_map.mp hq1
    have hlq : lookupGroup groups q.1 = pq.2 := by
      rw [← hpq1]
      exact hlook hpq
    have hmin : ∀ p ∈ groups, cap ∈ p.2 → q.1.length ≤ p.1.length := by
      intro p hp hcp
      refine h4 p.1 ((List.mem_insertionSort lenLE).mpr (List.mem_map.mpr ⟨p, hp, rfl⟩)) ?_
      rw [hlook hp]
      exact hcp
    refine ⟨⟨pq.2, ?_, ?_⟩, hmin, ?_⟩
    · rw [← hpq1]
      simpa using hpq
    · rw [← hlq]
      exact h2
    · rintro ⟨l0, hl0, hcl0⟩
      have hle := hmin ("", l0) hl0 hcl0
      have h0 : ("" : String).length = 0 := rfl
      rw [h0] at hle
      have hlen : q.1.data.length = 0 := Nat.le_zero.mp hle
      have hdata : q.1.data = [] := List.length_eq_zero.mp hlen
      exact congrArg String.mk hdata

/-- Witness for C1: `onoff` occurs in both the empty group and `socket1`;
after flattening it is listed exactly once. -/
theorem flattenGroups_unique_shortest_witness :
    countContaining "onoff" (flattenGroups [("", ["onoff", "dim"]), ("socket1", ["onoff"])]) = 1 :=
  (flattenGroups_unique_shortest [("", ["onoff", "dim"]), ("socket1", ["onoff"])] (by decide)
    "onoff" ⟨("", ["onoff", "dim"]), by decide, by decide⟩).1

/-! ## Claim C2 — `accessorize` is idempotent -/

/-- Claim C2: if the handle already holds a constructed accessory, a further
call to `accessorize` returns that same accessory and leaves the handle
unchanged — in particular no additional services, characteristics or
capability-change listeners are created for the handle. -/
theorem accessorize_idempotent {V : Type} (m : MappedDevice V) (a : Accessory V)
    (h : m.accessory = some a) :
    m.accessorize = (a, m)
    ∧ m.accessorize.2.listeners = m.listeners
    ∧ m.accessorize.2.accessory = m.accessory := by
  unfold MappedDevice.accessorize
  rw [h]
  exact ⟨rfl, rfl, h⟩

/-- Witness for C2: a handle that already carries its accessory. -/
theorem accessorize_idempotent_witness :
    ({ MappedDevice.make sampleDevice sampleMap with
        accessory := some sampleAccessory } : MappedDevice ℚ).accessorize
      = (sampleAccessory,
         { MappedDevice.make sampleDevice sampleMap with accessory := some sampleAccessory }) :=
  (accessorize_idempotent _ sampleAccessory rfl).1

/-! ## Claim C6 — read handlers fail on missing values -/

/-- Claim C6: for every non-trigger binding with a getter, the binder installs
a read handler carrying that getter, and the handler fails (an error surfaced
to the caller) exactly when the device reports no current value for the bound
capability; otherwise it returns the getter-transformed, validated value — a
missing value is never silently replaced by a default. -/
theorem binder_read_handler_missing_value {V : Type} (device : Device V) (capability : String)
    (hasOnUpdate : Bool) (cm : CharacteristicMap V) (g : V → V)
    (hg : selectedGetter device capability cm = some g)
    (i : Nat) (bc : BoundChar V)
    (hbc : (processCharacteristicMap device capability false hasOnUpdate cm).1.get? i = some bc)
    (validate : String → V → V) (d : Device V) :
    bc.readB = some { getter := g, capability := capability, charType := bc.charType }
  ∧ (rawCapValue d capability = none →
      runReadHandler validate { getter := g, capability := capability, charType := bc.charType } d
        = .error ("missing capability value for " ++ capability))
  ∧ (∀ raw, rawCapValue d capability = some raw →
      runReadHandler validate { getter := g, capability := capability, charType := bc.charType } d
        = .ok (validate bc.charType (g raw))) := by
  simp only [processCharacteristicMap, List.get?_eq_getElem?, List.getElem?_map] at hbc
  cases hk : (cm.characteristics.flat)[i]? with
  | none =>
      rw [hk] at hbc
      simp at hbc
  | some klass =>
      rw [hk] at hbc
      obtain rfl := (Option.some.inj hbc).symm
      refine ⟨by simp [hg], fun h => by simp [runReadHandler, h], fun raw h => by
        simp [runReadHandler, h]⟩

/-- Witness for C6, the spec's read scenario: `dim = 0.4`, getter `v => v*100`
— the read returns `40`. -/
theorem binder_read_handler_missing_value_witness :
    runReadHandler (fun _ v => v)
      ({ getter := fun v => v * 100, capability := "dim", charType := "Brightness" }
        : ReadBinding ℚ)
      sampleDevice = Except.ok (40 : ℚ) := by
  have h := (binder_read_handler_missing_value sampleDevice "dim" false sampleBinding
      (fun v => v * 100) rfl 0
      { charType := "Brightness", hasChangeHook := false,
        readB := some { getter := fun v => v * 100, capability := "dim",
                        charType := "Brightness" },
        writeB := some { setter := fun v => v / 100, capability := "dim",
                         timeout := 0, immediate := true } }
      rfl (fun _ v => v) sampleDevice).2.2 (2/5) rfl
  exact h.trans (by norm_num)

/-! ## Claim C7 — write rejections are suppressed, the cache is optimistic -/

theorem rawCapValue_updateCapability {V : Type} (d : Device V) (cap : String) (v : V) :
    rawCapValue (updateCapability d cap v) cap = some v := by
  unfold rawCapValue updateCapability
  simp [jsGet_jsSet]

/-- Claim C7: for every non-trigger binding with a setter, the binder installs
a write handler carrying that setter; when the device rejects or errors on the
requested write the failure is suppressed (the handler still succeeds), and
the local cached copy of the capability's value is updated to the attempted,
setter-transformed value — this holds for every device-write outcome,
rejections included. -/
theorem binder_write_handler_optimistic {V : Type} (device : Device V) (capability : String)
    (hasOnUpdate : Bool) (cm : CharacteristicMap V) (s : V → V)
    (hs : selectedSetter device capability cm = some s)
    (i : Nat) (bc : BoundChar V)
    (hbc : (processCharacteristicMap device capability false hasOnUpdate cm).1.get? i = some bc)
    (devWrite : String → V → Except String Unit) (raw : V) (d : Device V) :
    (∃ wb, bc.writeB = some wb ∧ wb.setter = s ∧ wb.capability = capability)
  ∧ (∀ wb, bc.writeB = some wb →
      runWriteHandler wb devWrite raw d = .ok (updateCapability d capability (s raw))
      ∧ rawCapValue (updateCapability d capability (s raw)) capability = some (s raw)) := by
  simp only [processCharacteristicMap, List.get?_eq_getElem?, List.getElem?_map] at hbc
  cases hk : (cm.characteristics.flat)[i]? with
  | none =>
      rw [hk] at hbc
      simp at hbc
  | some klass =>
      rw [hk] at hbc
      obtain rfl := (Option.some.inj hbc).symm
      constructor
      · refine ⟨{ setter := s, capability := capability,
                  timeout := cm.debounce.getD 0,
                  immediate := cm.debounce.getD 0 == 0 }, by simp [hs], rfl, rfl⟩
      · intro wb hwb
        have h2 : (some { setter := s, capability := capability,
                          timeout := cm.debounce.getD 0,
                          immediate := cm.debounce.getD 0 == 0 }
              : Option (WriteBinding V)) = some wb := by
          rw [← hwb]
          simp [hs]
        obtain rfl := (Option.some.inj h2)
        constructor
        · unfold runWriteHandler
          cases hdw : devWrite capability (s raw) with
          | ok u => simp [catchIgnore, hdw]
          | error e => simp [catchIgnore, hdw]
        · exact rawCapValue_updateCapability d capability (s raw)

/-- Witness for C7, the spec's write scenario: `Brightness = 75` transforms
via `v => v/100` to `0.75`; the device rejects the write, the handler still
succeeds and the cached `dim` value becomes `0.75`. -/
theorem binder_write_handler_optimistic_witness :
    runWriteHandler
      ({ setter := fun v => v / 100, capability := "dim", timeout := 0, immediate := true }
        : WriteBinding ℚ)
      (fun _ _ => Except.error "rejected") 75 sampleDevice
      = Except.ok (updateCapability sampleDevice "dim" ((75 : ℚ) / 100))
  ∧ rawCapValue (updateCapability sampleDevice "dim" ((75 : ℚ) / 100)) "dim"
      = some (3/4 : ℚ) := by
  have h := (binder_write_handler_optimistic sampleDevice "dim" false sampleBinding
      (fun v => v / 100) rfl 0
      { charType := "Brightness", hasChangeHook := false
        readB := some { getter := fun v => v * 100, capability := "dim"
                        charType := "Brightness" }
        writeB := some { setter := fun v => v / 100, capability := "dim"
                         timeout := 0, immediate := true } }
      rfl (fun _ _ => Except.error "rejected") 75 sampleDevice).2
      { setter := fun v => v / 100, capability := "dim", timeout := 0, immediate := true }
      rfl
  refine ⟨h.1, h.2.trans ?_⟩
  congr 1
  norm_num

/-! ## Claim C9 — debounce interval and edge polarity -/

/-- Claim C9: for every characteristic binding, the binder installs the write
handler and the device-subscription callback with debounce interval equal to
the binding's `debounce` field defaulted to 0, and with immediate
(leading-edge) mode exactly when that field is 0 or unspecified (falsy), and
trailing-edge mode for any truthy (non-zero) interval. -/
theorem binder_debounce_polarity {V : Type} (device : Device V) (capability : String)
    (isTrigger hasOnUpdate : Bool) (cm : CharacteristicMap V) :
    ((processCharacteristicMap device capability isTrigger hasOnUpdate cm).2.timeout
        = cm.debounce.getD 0
      ∧ ((processCharacteristicMap device capability isTrigger hasOnUpdate cm).2.immediate = true
          ↔ cm.debounce.getD 0 = 0))
  ∧ (∀ (i : Nat) (bc : BoundChar V) (wb : WriteBinding V),
      (processCharacteristicMap device capability isTrigger hasOnUpdate cm).1.get? i = some bc →
      bc.writeB = some wb →
      wb.timeout = cm.debounce.getD 0 ∧ (wb.immediate = true ↔ cm.debounce.getD 0 = 0)) := by
  constructor
  · constructor
    · rfl
    · simp [processCharacteristicMap]
  · intro i bc wb hbc hwb
    simp only [processCharacteristicMap, List.get?_eq_getElem?, List.getElem?_map] at hbc
    cases hk : (cm.characteristics.flat)[i]? with
    | none =>
        rw [hk] at hbc
        simp at hbc
    | some klass =>
        rw [hk] at hbc
        obtain rfl := (Option.some.inj hbc).symm
        by_cases ht : isTrigger = true
        · rw [ht] at hwb
          simp at hwb
        · have ht' : isTrigger = false := by
            cases isTrigger
            · rfl
            · exact absurd rfl ht
          rw [ht'] at hwb
          cases hss : selectedSetter device capability cm with
          | none =>
              rw [hss] at hwb
              simp at hwb
          | some s =>
              rw [hss] at hwb
              obtain rfl := (Option.some.inj hwb).symm
              exact ⟨rfl, by simp⟩

/-- Witness for C9: a binding with `debounce: 300` installs a trailing-edge
(non-immediate) subscription and write handler with a 300 ms interval. -/
theorem binder_debounce_polarity_witness :
    ((processCharacteristicMap sampleDevice "dim" false false sampleTrailing).2.timeout
        = sampleTrailing.debounce.getD 0
      ∧ ((processCharacteristicMap sampleDevice "dim" false false sampleTrailing).2.immediate = true
          ↔ sampleTrailing.debounce.getD 0 = 0))
  ∧ (({ setter := fun v => v, capability := "dim", timeout := 300, immediate := false }
        : WriteBinding ℚ).timeout = sampleTrailing.debounce.getD 0
      ∧ (({ setter := fun v => v, capability := "dim", timeout := 300, immediate := false }
        : WriteBinding ℚ).immediate = true ↔ sampleTrailing.debounce.getD 0 = 0)) :=
  ⟨(binder_debounce_polarity sampleDevice "dim" false false sampleTrailing).1,
   (binder_debounce_polarity sampleDevice "dim" false false sampleTrailing).2 0
     { charType := "Target", hasChangeHook := false
       readB := none
       writeB := some { setter := fun v => v, capability := "dim"
                        timeout := 300, immediate := false } }
     { setter := fun v => v, capability := "dim", timeout := 300, immediate := false }
     rfl rfl⟩

/-! ## Claim C8 — cleanup and pending debounce timers -/

/-- Claim C8 counterexample: a capability event arms a trailing-edge debounce
timer, then `cleanup()` runs — the subscription is destroyed but the pending
timer is not cancelled, and when it expires the coalesced callback still
fires, after cleanup has returned.  This refutes "no capability-change
callback of that handle ever fires again" / "pending timers are cancelled". -/
theorem cleanup_pending_timer_counterexample :
    (handleRun sampleHandleSys
      [HandleEv.deliver 0, HandleEv.cleanup, HandleEv.timerFire 0]).firedAfterCleanup
      = true := by
  rfl

theorem handleRun_quiet (evs : List HandleEv) : ∀ (t : HandleSys),
    t.firedAfterCleanup = false →
    (∀ l ∈ t.listeners, l.active = false ∧ l.pending = false) →
    (handleRun t evs).firedAfterCleanup = false
    ∧ ∀ l ∈ (handleRun t evs).listeners, l.active = false ∧ l.pending = false := by
  induction evs with
  | nil => intro t hf h; exact ⟨hf, h⟩
  | cons e rest ih =>
      intro t hf h
      have hstep : handleStep t e = t ∨
          (handleStep t e).firedAfterCleanup = t.firedAfterCleanup
          ∧ ∀ l ∈ (handleStep t e).listeners, l.active = false ∧ l.pending = false := by
        cases e with
        | deliver i =>
            cases hg : t.listeners[i]? with
            | none => left; simp [handleStep, hg]
            | some l =>
                have hl := h l (List.getElem?_mem hg)
                left
                simp [handleStep, hg, hl.1]
        | timerFire i =>
            cases hg : t.listeners[i]? with
            | none => left; simp [handleStep, hg]
            | some l =>
                have hl := h l (List.getElem?_mem hg)
                left
                simp [handleStep, hg, hl.2]
        | cleanup =>
            right
            constructor
            · rfl
            · intro l hl
              simp only [handleStep, List.mem_map] at hl
              obtain ⟨l0, hl0, rfl⟩ := hl
              exact ⟨rfl, (h l0 hl0).2⟩
      show (handleRun (handleStep t e) rest).firedAfterCleanup = false
        ∧ ∀ l ∈ (handleRun (handleStep t e) rest).listeners, l.active = false ∧ l.pending = false
      rcases hstep with heq | ⟨h1, h2⟩
      · rw [heq]
        exact ih t hf h
      · exact ih _ (h1.trans hf) h2

/-- Claim C8 (amended): `cleanup()` synchronously destroys every active
subscription, so after it returns no capability event is delivered to any
callback and no new debounce timer is armed; pending trailing-edge timers are
however not cancelled — a timer already pending at cleanup may still fire its
callback once afterwards.  When no timer is pending at the moment of cleanup,
no capability-change callback of the handle ever fires again. -/
theorem cleanup_amended (s : HandleSys) (hf : s.firedAfterCleanup = false)
    (hp : ∀ l ∈ s.listeners, l.pending = false) (evs : List HandleEv) :
    (∀ l ∈ (handleStep s .cleanup).listeners, l.active = false)
  ∧ (handleRun (handleStep s .cleanup) evs).firedAfterCleanup = false := by
  constructor
  · intro l hl
    simp only [handleStep, List.mem_map] at hl
    obtain ⟨l0, _, rfl⟩ := hl
    rfl
  · refine (handleRun_quiet evs (handleStep s .cleanup) hf ?_).1
    intro l hl
    simp only [handleStep, List.mem_map] at hl
    obtain ⟨l0, hl0, rfl⟩ := hl
    exact ⟨rfl, hp l0 hl0⟩

/-- Witness for the amended C8: one idle trailing-edge subscription; after
cleanup, a delivery and a timer expiry fire nothing. -/
theorem cleanup_amended_witness :
    (∀ l ∈ (handleStep sampleHandleSys .cleanup).listeners, l.active = false)
  ∧ (handleRun (handleStep sampleHandleSys .cleanup)
      [HandleEv.deliver 0, HandleEv.timerFire 0]).firedAfterCleanup = false :=
  cleanup_amended sampleHandleSys rfl (by decide) [HandleEv.deliver 0, HandleEv.timerFire 0]

/-! ## Claim C10 — unmappable devices are recorded as not exposed -/

theorem ledger_get_set_self {V : Type} [DecidableEq V] (s : StorageBackedMap V)
    (k : String) (v : V) : (s.set k v).get k = some v := by
  simp [StorageBackedMap.set, StorageBackedMap.get, jsGet_jsSet]

/-- Claim C10: for every device that passes the readiness guard (non-virtual,
ready, with a capabilities object) but for which no capability map applies,
`addDeviceToHomeKit` returns `false` and sets the device's exposure-ledger
entry to `false` — the unmappable device is recorded as decided-not-exposed
rather than left absent in the ledger. -/
theorem addDevice_unmappable_recorded {V : Type} (exposed : StorageBackedMap Bool)
    (ndp : Option Bool) (device : Device V) (bridgeAddOk : Bool)
    (h1 : isVirtualDevice device = false) (h2 : device.ready = true)
    (h3 : device.capabilitiesObj.isSome = true) :
    (addDeviceToHomeKit exposed ndp device none bridgeAddOk).1 = some false
  ∧ (addDeviceToHomeKit exposed ndp device none bridgeAddOk).2.get device.id
      = some false := by
  unfold addDeviceToHomeKit
  rw [h1, h2, h3]
  constructor
  · rfl
  · exact ledger_get_set_self _ device.id false

/-- Witness for C10: a ready, non-virtual device with a capabilities object
and no applicable map ends up recorded as `false` in the ledger. -/
theorem addDevice_unmappable_recorded_witness :
    (addDeviceToHomeKit (StorageBackedMap.load []) none sampleDevice none true).1 = some false
  ∧ (addDeviceToHomeKit (StorageBackedMap.load []) none sampleDevice none true).2.get
      sampleDevice.id = some false :=
  addDevice_unmappable_recorded (StorageBackedMap.load []) none sampleDevice true rfl rfl rfl
